import Mathlib

/-!
# Taurscribe capture-to-transcript pipeline: verification development

Shallow embedding of the Rust sources under `src-tauri/src/`. Conventions:

* `f32` samples are modelled as exact rationals (`ℚ`); IEEE rounding is
  abstracted away except where a claim is specifically about IEEE behaviour
  (the NaN produced by `is_speech` on an empty block, modelled explicitly).
* External stateful library calls (the RNNoise `DenoiseState::process_frame`
  of `nnnoiseless`, and the whisper-rs / ONNX ASR engines) are abstract
  parameters: a state type together with a step function.
* Rust `Vec<f32>` becomes `List ℚ`, `String` becomes `List Char`,
  `Result<T, E>` becomes `Except E T`.
* Loops are translated to recursion. Where a Rust `while` loop consumes a
  positive number of elements per iteration, the recursion either uses the
  buffer length directly as a well-founded measure, or (when concrete
  evaluation by `decide` is needed) a structural fuel argument initialised
  to the buffer length, which is provably sufficient because every
  iteration shortens the buffer.

The repository contains both a stale monolithic `lib.rs` and the current
modular sources (`commands/*.rs`, `denoise.rs`, `vad.rs`, `utils.rs`, ...).
The modular files are the ones embedded here.
-/

namespace Taurscribe

/-! ## Denoiser (`denoise.rs`)

`FRAME_SIZE = 480`.  `Denoiser` holds the RNNoise state (abstract type `σ`,
stepped by the abstract `procFrame`, standing for
`DenoiseState::process_frame`) and the `remainder` buffer of leftover
samples from previous `process` calls. -/

def FRAME_SIZE : ℕ := 480

structure Denoiser (σ : Type) where
  rnn : σ
  remainder : List ℚ

/-- `Denoiser::new()`: fresh RNNoise state, empty remainder. -/
def Denoiser.new {σ : Type} (s0 : σ) : Denoiser σ := ⟨s0, []⟩

/-- The full-frame loop inside `Denoiser::process`: starting from RNNoise
state `s`, process as many complete `FRAME_SIZE` frames of `src` as
possible, returning (final RNNoise state, concatenated denoised output,
leftover sub-frame samples). -/
def processFrames {σ : Type} (procFrame : σ → List ℚ → σ × List ℚ)
    (s : σ) (src : List ℚ) : σ × List ℚ × List ℚ :=
  if _h : FRAME_SIZE ≤ src.length then
    let p := procFrame s (src.take FRAME_SIZE)
    let r := processFrames procFrame p.1 (src.drop FRAME_SIZE)
    (r.1, p.2 ++ r.2.1, r.2.2)
  else
    (s, [], src)
termination_by src.length
decreasing_by
  simp only [List.length_drop]
  have : 0 < FRAME_SIZE := by norm_num [FRAME_SIZE]
  omega

/-- `Denoiser::process(&mut self, input)`, translated from `denoise.rs`
lines 36–95: if the remainder is nonempty it is completed to a full frame
from the head of the input (or, if the input is too short, the input is
appended to the remainder and nothing is emitted); then full frames are
processed from the rest of the input; any trailing sub-frame samples
become the new remainder. Returns (updated denoiser, emitted samples). -/
def Denoiser.process {σ : Type} (procFrame : σ → List ℚ → σ × List ℚ)
    (d : Denoiser σ) (input : List ℚ) : Denoiser σ × List ℚ :=
  if d.remainder.isEmpty then
    let r := processFrames procFrame d.rnn input
    (⟨r.1, r.2.2⟩, r.2.1)
  else
    let need := FRAME_SIZE - d.remainder.length
    if need ≤ input.length then
      let frame := d.remainder ++ input.take need
      let p := procFrame d.rnn frame
      let r := processFrames procFrame p.1 (input.drop need)
      (⟨r.1, r.2.2⟩, p.2 ++ r.2.1)
    else
      (⟨d.rnn, d.remainder ++ input⟩, [])

lemma processFrames_of_le {σ : Type} (p : σ → List ℚ → σ × List ℚ) (s : σ)
    {src : List ℚ} (h : FRAME_SIZE ≤ src.length) :
    processFrames p s src =
      ((processFrames p (p s (src.take FRAME_SIZE)).1 (src.drop FRAME_SIZE)).1,
       (p s (src.take FRAME_SIZE)).2 ++
         (processFrames p (p s (src.take FRAME_SIZE)).1 (src.drop FRAME_SIZE)).2.1,
       (processFrames p (p s (src.take FRAME_SIZE)).1 (src.drop FRAME_SIZE)).2.2) := by
  rw [processFrames]
  simp [h]

lemma processFrames_of_lt {σ : Type} (p : σ → List ℚ → σ × List ℚ) (s : σ)
    {src : List ℚ} (h : src.length < FRAME_SIZE) :
    processFrames p s src = (s, [], src) := by
  rw [processFrames]
  simp [Nat.not_le.2 h]

/-- The leftover returned by the full-frame loop is always a sub-frame. -/
lemma processFrames_remainder_lt {σ : Type} (p : σ → List ℚ → σ × List ℚ) :
    ∀ (src : List ℚ) (s : σ),
      (processFrames p s src).2.2.length < FRAME_SIZE := by
  suffices h : ∀ (n : ℕ) (src : List ℚ), src.length = n → ∀ s : σ,
      (processFrames p s src).2.2.length < FRAME_SIZE by
    intro src s; exact h src.length src rfl s
  intro n
  induction n using Nat.strong_induction_on with
  | _ n ih =>
    intro src hn s
    rcases lt_or_le src.length FRAME_SIZE with h | h
    · rw [processFrames_of_lt p s h]; exact h
    · rw [processFrames_of_le p s h]
      have hlt : (src.drop FRAME_SIZE).length < n := by
        simp only [List.length_drop]
        have : 0 < FRAME_SIZE := by norm_num [FRAME_SIZE]
        omega
      exact ih _ hlt _ rfl _

/-- Splitting the input of the full-frame loop at any point and rerunning
from the intermediate state and leftover is the same as one run: the frame
boundaries fall at the same sample offsets either way. -/
lemma processFrames_append {σ : Type} (p : σ → List ℚ → σ × List ℚ) :
    ∀ (a b : List ℚ) (s : σ),
      processFrames p s (a ++ b) =
        ((processFrames p (processFrames p s a).1
            ((processFrames p s a).2.2 ++ b)).1,
         (processFrames p s a).2.1 ++
           (processFrames p (processFrames p s a).1
             ((processFrames p s a).2.2 ++ b)).2.1,
         (processFrames p (processFrames p s a).1
            ((processFrames p s a).2.2 ++ b)).2.2) := by
  suffices key : ∀ (n : ℕ) (a : List ℚ), a.length = n → ∀ (b : List ℚ) (s : σ),
      processFrames p s (a ++ b) =
        ((processFrames p (processFrames p s a).1
            ((processFrames p s a).2.2 ++ b)).1,
         (processFrames p s a).2.1 ++
           (processFrames p (processFrames p s a).1
             ((processFrames p s a).2.2 ++ b)).2.1,
         (processFrames p (processFrames p s a).1
            ((processFrames p s a).2.2 ++ b)).2.2) by
    intro a b s; exact key a.length a rfl b s
  intro n
  induction n using Nat.strong_induction_on with
  | _ n ih =>
    intro a hn b s
    rcases lt_or_le a.length FRAME_SIZE with h | h
    · rw [processFrames_of_lt p s h]; simp
    · have hab : FRAME_SIZE ≤ (a ++ b).length := by
        simp only [List.length_append]; omega
      rw [processFrames_of_le p s hab, processFrames_of_le p s h]
      rw [List.take_append_of_le_length h, List.drop_append_of_le_length h]
      have hlt : (a.drop FRAME_SIZE).length < n := by
        simp only [List.length_drop]
        have : 0 < FRAME_SIZE := by norm_num [FRAME_SIZE]
        omega
      rw [ih _ hlt _ rfl _]
      simp [List.append_assoc]

/-- `Denoiser.process` on a denoiser with a sub-frame remainder behaves
exactly like the full-frame loop run on `remainder ++ input`. -/
lemma Denoiser.process_eq {σ : Type} (p : σ → List ℚ → σ × List ℚ)
    (d : Denoiser σ) (h : d.remainder.length < FRAME_SIZE) (input : List ℚ) :
    d.process p input =
      (⟨(processFrames p d.rnn (d.remainder ++ input)).1,
        (processFrames p d.rnn (d.remainder ++ input)).2.2⟩,
       (processFrames p d.rnn (d.remainder ++ input)).2.1) := by
  rcases d with ⟨s, rem⟩
  rcases Decidable.em (rem = []) with hrem | hrem
  · subst hrem
    simp [Denoiser.process]
  · have hne : ¬rem.isEmpty := by simpa [List.isEmpty_iff] using hrem
    simp only [Denoiser.process, hne, Bool.false_eq_true, if_false]
    simp only at h
    rcases Decidable.em (FRAME_SIZE - rem.length ≤ input.length) with hlen | hlen
    · simp only [hlen, if_true]
      have hfull : FRAME_SIZE ≤ (rem ++ input).length := by
        simp only [List.length_append]; omega
      rw [processFrames_of_le p s hfull]
      have htake : (rem ++ input).take FRAME_SIZE
          = rem ++ input.take (FRAME_SIZE - rem.length) := by
        rw [List.take_append_eq_append_take]
        congr 1
        exact List.take_of_length_le (by omega)
      have hdrop : (rem ++ input).drop FRAME_SIZE
          = input.drop (FRAME_SIZE - rem.length) := by
        rw [List.drop_append_eq_append_drop]
        have : rem.drop FRAME_SIZE = [] := List.drop_eq_nil_of_le (by omega)
        simp [this]
      rw [htake, hdrop]
    · simp only [hlen, if_false]
      have hshort : (rem ++ input).length < FRAME_SIZE := by
        simp only [List.length_append]; omega
      rw [processFrames_of_lt p s hshort]

/-- `Denoiser.process_eq` restated for an explicit structure literal. -/
lemma Denoiser.process_mk {σ : Type} (p : σ → List ℚ → σ × List ℚ)
    (s : σ) (rem : List ℚ) (h : rem.length < FRAME_SIZE) (input : List ℚ) :
    (Denoiser.mk s rem).process p input =
      (⟨(processFrames p s (rem ++ input)).1,
        (processFrames p s (rem ++ input)).2.2⟩,
       (processFrames p s (rem ++ input)).2.1) :=
  Denoiser.process_eq p ⟨s, rem⟩ h input

/-- **C5.** Denoiser frame-buffering is call-split invariant: for every
`k ≥ 1` and every `n ≤ 480 * k`, feeding a fresh `Denoiser` an input of
`480 * k` samples split into two `process()` calls of sizes `n` and
`480 * k - n` produces exactly the same concatenated output samples as
feeding the full input in a single `process()` call (the remainder buffer
completes the pending partial frame first, then processes full frames,
then stashes the new remainder). -/
theorem denoiser_split_invariant {σ : Type} (p : σ → List ℚ → σ × List ℚ)
    (s0 : σ) (xs : List ℚ) (k n : ℕ) (hk : 1 ≤ k)
    (hlen : xs.length = FRAME_SIZE * k) (hn : n ≤ FRAME_SIZE * k) :
    ((Denoiser.new s0).process p (xs.take n)).2 ++
        ((((Denoiser.new s0).process p (xs.take n)).1).process p (xs.drop n)).2
      = ((Denoiser.new s0).process p xs).2 := by
  have hz : ([] : List ℚ).length < FRAME_SIZE := by norm_num [FRAME_SIZE]
  simp only [Denoiser.new]
  rw [Denoiser.process_mk p s0 [] hz (xs.take n)]
  dsimp only
  rw [Denoiser.process_mk p _ _ (processFrames_remainder_lt p ([] ++ xs.take n) s0)
        (xs.drop n),
      Denoiser.process_mk p s0 [] hz xs]
  dsimp only
  simp only [List.nil_append]
  conv_rhs => rw [← List.take_append_drop n xs]
  rw [processFrames_append p (xs.take n) (xs.drop n) s0]

/-- Witness for C5: the split invariant instantiated at a concrete abstract
frame function (`σ = ℕ`, each frame output shifted by a running counter),
a 480-sample all-zero input (`k = 1`), split at `n = 100`. -/
theorem denoiser_split_invariant_witness :
    1 ≤ 1 ∧ (List.replicate 480 (0 : ℚ)).length = FRAME_SIZE * 1 ∧
      100 ≤ FRAME_SIZE * 1 ∧
      ((Denoiser.new (0 : ℕ)).process
            (fun (s : ℕ) (f : List ℚ) => (s + 1, f.map (fun x => x + (s : ℚ))))
            ((List.replicate 480 (0 : ℚ)).take 100)).2 ++
          ((((Denoiser.new (0 : ℕ)).process
                (fun (s : ℕ) (f : List ℚ) => (s + 1, f.map (fun x => x + (s : ℚ))))
                ((List.replicate 480 (0 : ℚ)).take 100)).1).process
              (fun (s : ℕ) (f : List ℚ) => (s + 1, f.map (fun x => x + (s : ℚ))))
              ((List.replicate 480 (0 : ℚ)).drop 100)).2
        = ((Denoiser.new (0 : ℕ)).process
            (fun (s : ℕ) (f : List ℚ) => (s + 1, f.map (fun x => x + (s : ℚ))))
            (List.replicate 480 (0 : ℚ))).2 :=
  ⟨le_refl 1, by rw [List.length_replicate]; norm_num [FRAME_SIZE], by norm_num [FRAME_SIZE],
    denoiser_split_invariant (fun (s : ℕ) (f : List ℚ) => (s + 1, f.map (fun x => x + (s : ℚ))))
      0 (List.replicate 480 (0 : ℚ)) 1 100 (le_refl 1)
      (by rw [List.length_replicate]; norm_num [FRAME_SIZE]) (by norm_num [FRAME_SIZE])⟩

/-! ## Transcript post-processing (`utils.rs`, `clean_transcript`)

Rust `String`s become `List Char`.  The Unicode facilities of the Rust
standard library are abstract parameters:
`isWS` models `char::is_whitespace` (used by `str::trim`),
`isLow` models `char::is_lowercase`, and
`upStr` models `char::to_uppercase` (which yields a short string).
Every pattern handed to `str::replace` by `clean_transcript` has exactly
two characters, so `replace2 a b rep` is the faithful specialisation of
`str::replace` to a two-character pattern `[a, b]`: scan left to right,
replace non-overlapping occurrences. -/

def replace2 (a b : Char) (rep : List Char) : List Char → List Char
  | [] => []
  | [c] => [c]
  | c :: d :: t =>
      if c = a ∧ d = b then rep ++ replace2 a b rep t
      else c :: replace2 a b rep (d :: t)

/-- `s.contains("  ")` specialised to the two-space pattern: true iff two
consecutive spaces occur. -/
def hasDoubleSpace : List Char → Bool
  | c :: d :: t => (c = ' ' && d = ' ') || hasDoubleSpace (d :: t)
  | _ => false

/-- The `while cleaned.contains("  ")` loop of `clean_transcript`, with a
structural fuel argument.  Fuel `s.length` is sufficient: every iteration
strictly shortens the string (`replace2_space_lt`), so the fuelled
recursion reaches the loop's fixed point (`collapseFuel_no_double`)
exactly as the unbounded `while` does. -/
def collapseFuel : ℕ → List Char → List Char
  | 0, s => s
  | f + 1, s =>
      if hasDoubleSpace s then collapseFuel f (replace2 ' ' ' ' [' '] s) else s

def collapseSpaces (s : List Char) : List Char := collapseFuel s.length s

/-- `str::trim`: drop leading and trailing whitespace. -/
def trim (isWS : Char → Bool) (s : List Char) : List Char :=
  ((s.dropWhile isWS).reverse.dropWhile isWS).reverse

/-- The capitalisation step of `clean_transcript`: if the first character
is lowercase, replace it by its uppercase mapping. -/
def capitalize (isLow : Char → Bool) (upStr : Char → List Char) :
    List Char → List Char
  | [] => []
  | f :: rest => if isLow f then upStr f ++ rest else f :: rest

/-- `clean_transcript` (`utils.rs` lines 4–33): trim, fix floating
punctuation (` ,` ` .` ` ?` ` !` ` %`), collapse double spaces, capitalise
the first letter. -/
def clean_transcript (isWS isLow : Char → Bool) (upStr : Char → List Char)
    (text : List Char) : List Char :=
  let c0 := trim isWS text
  let c1 := replace2 ' ' ',' [','] c0
  let c2 := replace2 ' ' '.' ['.'] c1
  let c3 := replace2 ' ' '?' ['?'] c2
  let c4 := replace2 ' ' '!' ['!'] c3
  let c5 := replace2 ' ' '%' ['%'] c4
  let c6 := collapseSpaces c5
  capitalize isLow upStr c6

lemma replace2_length_le (a b : Char) (rep : List Char) (hrep : rep.length ≤ 2) :
    ∀ s : List Char, (replace2 a b rep s).length ≤ s.length := by
  intro s
  induction s using replace2.induct a b rep with
  | case1 => simp [replace2]
  | case2 c => simp [replace2]
  | case3 c d t h ih =>
      rw [replace2, if_pos h]
      simp only [List.length_append, List.length_cons]
      omega
  | case4 c d t h ih =>
      rw [replace2, if_neg h]
      simp only [List.length_cons] at *
      omega

lemma replace2_space_lt :
    ∀ s : List Char, hasDoubleSpace s = true →
      (replace2 ' ' ' ' [' '] s).length < s.length := by
  intro s
  induction s using replace2.induct ' ' ' ' [' '] with
  | case1 => simp [hasDoubleSpace]
  | case2 c => simp [hasDoubleSpace]
  | case3 c d t h ih =>
      intro _
      rw [replace2, if_pos h]
      have := replace2_length_le ' ' ' ' [' '] (by simp) t
      simp only [List.length_append, List.length_cons, List.length_nil] at *
      omega
  | case4 c d t h ih =>
      intro hds
      rw [replace2, if_neg h]
      have htail : hasDoubleSpace (d :: t) = true := by
        rw [hasDoubleSpace] at hds
        rcases Bool.or_eq_true_iff.1 hds with h1 | h1
        · exact absurd ⟨by simpa using (Bool.and_eq_true_iff.1 h1).1,
            by simpa using (Bool.and_eq_true_iff.1 h1).2⟩ h
        · exact h1
      have := ih htail
      simp only [List.length_cons] at *
      omega

lemma collapseFuel_no_double :
    ∀ (f : ℕ) (s : List Char), s.length ≤ f →
      hasDoubleSpace (collapseFuel f s) = false := by
  intro f
  induction f with
  | zero =>
      intro s hs
      have : s = [] := List.length_eq_zero.1 (Nat.le_zero.1 hs)
      subst this
      simp [collapseFuel, hasDoubleSpace]
  | succ f ih =>
      intro s hs
      rw [collapseFuel]
      by_cases hd : hasDoubleSpace s = true
      · rw [if_pos hd]
        exact ih _ (by have := replace2_space_lt s hd; omega)
      · rw [if_neg hd]
        exact Bool.not_eq_true _ ▸ (by simpa using hd)

lemma collapseSpaces_no_double (s : List Char) :
    hasDoubleSpace (collapseSpaces s) = false :=
  collapseFuel_no_double s.length s le_rfl

lemma replace2_ne_nil (a b : Char) (rep : List Char) (hrep : rep ≠ [])
    {s : List Char} (hs : s ≠ []) : replace2 a b rep s ≠ [] := by
  match s with
  | [c] => simp [replace2]
  | c :: d :: t =>
      rw [replace2]
      by_cases h : c = a ∧ d = b
      · rw [if_pos h]
        exact fun hcon => hrep (List.append_eq_nil.1 hcon).1
      · rw [if_neg h]; simp

lemma collapseFuel_ne_nil :
    ∀ (f : ℕ) {s : List Char}, s ≠ [] → collapseFuel f s ≠ [] := by
  intro f
  induction f with
  | zero => intro s hs; simpa [collapseFuel] using hs
  | succ f ih =>
      intro s hs
      rw [collapseFuel]
      by_cases hd : hasDoubleSpace s = true
      · rw [if_pos hd]
        exact ih (replace2_ne_nil ' ' ' ' [' '] (by simp) hs)
      · rw [if_neg hd]; exact hs

/-- Appending a space-free prefix to a double-space-free list cannot
create a double space. -/
lemma hasDoubleSpace_append_false :
    ∀ (xs ys : List Char), (∀ c ∈ xs, c ≠ ' ') →
      hasDoubleSpace ys = false → hasDoubleSpace (xs ++ ys) = false := by
  intro xs
  induction xs with
  | nil => intro ys _ hys; simpa using hys
  | cons c xs ih =>
      intro ys hsp hys
      have hc : c ≠ ' ' := hsp c (by simp)
      have htail : hasDoubleSpace (xs ++ ys) = false :=
        ih ys (fun d hd => hsp d (by simp [hd])) hys
      cases hxy : xs ++ ys with
      | nil => rw [List.cons_append, hxy]; simp [hasDoubleSpace]
      | cons d t =>
          rw [List.cons_append, hxy, hasDoubleSpace]
          rw [hxy] at htail
          simp [hc, htail]

/-- **C10.** For every input string, the output of `clean_transcript`
contains no two consecutive space characters and its first character,
when present, is not a lowercase letter; `clean_transcript` is total (it
is a Lean function) and returns the empty string only for inputs that
trim to empty.  The Unicode case-mapping of the Rust standard library is
abstracted by `isLow`/`upStr`; the hypotheses record the facts used about
it: the uppercase mapping of a lowercase character is nonempty, contains
no space, and does not start with a lowercase character. -/
theorem clean_transcript_props (isWS isLow : Char → Bool)
    (upStr : Char → List Char)
    (hups : ∀ c, isLow c = true → ∀ d ∈ upStr c, d ≠ ' ')
    (hupne : ∀ c, isLow c = true → upStr c ≠ [])
    (huplow : ∀ c, isLow c = true →
      ∀ d, (upStr c).head? = some d → isLow d = false)
    (text : List Char) :
    hasDoubleSpace (clean_transcript isWS isLow upStr text) = false ∧
    (∀ f, (clean_transcript isWS isLow upStr text).head? = some f →
      isLow f = false) ∧
    (clean_transcript isWS isLow upStr text = [] → trim isWS text = []) := by
  rw [clean_transcript]
  set c5 := replace2 ' ' '%' ['%'] (replace2 ' ' '!' ['!'] (replace2 ' ' '?' ['?']
    (replace2 ' ' '.' ['.'] (replace2 ' ' ',' [','] (trim isWS text))))) with hc5
  set c6 := collapseSpaces c5 with hc6
  have hnd : hasDoubleSpace c6 = false := collapseSpaces_no_double c5
  refine ⟨?_, ?_, ?_⟩
  · cases hshape : c6 with
    | nil => simp [capitalize, hasDoubleSpace]
    | cons f rest =>
        rw [capitalize]
        by_cases hl : isLow f = true
        · rw [if_pos hl]
          refine hasDoubleSpace_append_false _ _ (hups f hl) ?_
          rw [hshape] at hnd
          cases rest with
          | nil => simp [hasDoubleSpace]
          | cons d t =>
              rw [hasDoubleSpace] at hnd
              exact (Bool.or_eq_false_iff.1 hnd).2
        · rw [if_neg hl, ← hshape]
          exact hshape ▸ hnd
  · intro f hf
    cases hshape : c6 with
    | nil => rw [hshape] at hf; simp [capitalize] at hf
    | cons g rest =>
        rw [hshape, capitalize] at hf
        by_cases hl : isLow g = true
        · rw [if_pos hl] at hf
          cases hup : upStr g with
          | nil => exact absurd hup (hupne g hl)
          | cons u us =>
              rw [hup] at hf
              simp only [List.cons_append, List.head?_cons,
                Option.some.injEq] at hf
              exact hf ▸ huplow g hl u (by rw [hup]; rfl)
        · rw [if_neg hl] at hf
          simp only [List.head?_cons, Option.some.injEq] at hf
          exact hf ▸ (by simpa using hl)
  · intro hempty
    by_contra htrim
    have h1 : replace2 ' ' ',' [','] (trim isWS text) ≠ [] :=
      replace2_ne_nil _ _ _ (by simp) htrim
    have h2 : replace2 ' ' '.' ['.'] _ ≠ [] := replace2_ne_nil _ _ _ (by simp) h1
    have h3 : replace2 ' ' '?' ['?'] _ ≠ [] := replace2_ne_nil _ _ _ (by simp) h2
    have h4 : replace2 ' ' '!' ['!'] _ ≠ [] := replace2_ne_nil _ _ _ (by simp) h3
    have h5 : c5 ≠ [] := hc5 ▸ replace2_ne_nil _ _ _ (by simp) h4
    have h6 : c6 ≠ [] := hc6 ▸ collapseFuel_ne_nil _ h5
    cases hshape : c6 with
    | nil => exact h6 hshape
    | cons g rest =>
        rw [hshape, capitalize] at hempty
        by_cases hl : isLow g = true
        · rw [if_pos hl] at hempty
          exact hupne g hl (List.append_eq_nil.1 hempty).1
        · rw [if_neg hl] at hempty
          simp at hempty

/-- Witness for C10: the guarantees instantiated at concrete character
classifiers (`isWS` = space, `isLow` holds of `a` alone, uppercase map
constantly `"A"`) and the concrete input `"a  b ,"`. -/
theorem clean_transcript_props_witness :
    hasDoubleSpace (clean_transcript (fun c => c = ' ') (fun c => c = 'a')
      (fun _ => ['A']) "a  b ,".toList) = false ∧
    (clean_transcript (fun c => c = ' ') (fun c => c = 'a')
        (fun _ => ['A']) "a  b ,".toList = [] →
      trim (fun c => c = ' ') "a  b ,".toList = []) := by
  have h := clean_transcript_props (fun c => c = ' ') (fun c => c = 'a')
    (fun _ => ['A'])
    (by intro c _ d hd; simp at hd; subst hd; decide)
    (by intro c _; simp)
    (by intro c _ d hd; simp at hd; subst hd; decide)
    "a  b ,".toList
  exact ⟨h.1, h.2.2⟩

/-! ## Voice-activity detection (`vad.rs`)

`VADManager { threshold: f32 }` with `threshold = 0.005`; the `f32`
literal `0.005` is the dyadic rational `5368709 / 2^30`, used exactly.
`is_speech` computes the RMS energy of a block and maps it through a
clamped linear ramp.  On an empty block the Rust code divides `0.0 / 0.0`,
producing an IEEE NaN; the model tracks that NaN explicitly (`rmsOpt`
returns `none`), and the NaN propagates through the branch structure of
`is_speech`: both comparisons against NaN are false and
`f32::min(NaN, 1.0)` returns `1.0` (Rust `min` ignores a NaN operand). -/

def threshold : ℚ := 5368709 / 1073741824

/-- Sum of squared samples (`audio.iter().map(|&x| x * x).sum()`). -/
def sumSquares (xs : List ℚ) : ℚ := (xs.map (fun x => x * x)).sum

/-- The mean-square-root value for a nonempty block (real-valued; `f32`
rounding abstracted). -/
noncomputable def rmsVal (xs : List ℚ) : ℝ :=
  Real.sqrt ((sumSquares xs : ℝ) / (xs.length : ℝ))

/-- The `rms` computed by `is_speech`, with the IEEE NaN of the empty
block (`0.0 / 0.0`) tracked as `none`.  For a nonempty block the value is
an ordinary nonnegative real. -/
noncomputable def rmsOpt (xs : List ℚ) : Option ℝ :=
  if xs.length = 0 then none else some (rmsVal xs)

open Classical in
/-- `VADManager::is_speech` (`vad.rs` lines 78–98).  The `none` (NaN)
branch returns `1`: `NaN < threshold` and `NaN > threshold * 5.0` are
both false, `(NaN - threshold) / (threshold * 4.0)` is NaN, and
`f32::min(NaN, 1.0) = 1.0`. -/
noncomputable def is_speech (xs : List ℚ) : ℝ :=
  match rmsOpt xs with
  | none => 1
  | some rms =>
      if rms < (threshold : ℝ) then 0
      else if (threshold : ℝ) * 5 < rms then 1
      else min ((rms - (threshold : ℝ)) / ((threshold : ℝ) * 4)) 1

lemma threshold_posR : (0 : ℝ) < (threshold : ℝ) := by
  rw [show ((threshold : ℚ) : ℝ) = (5368709 : ℝ) / 1073741824 by
    norm_num [threshold]]
  norm_num

lemma sumSquares_nonneg (xs : List ℚ) : 0 ≤ sumSquares xs := by
  refine List.sum_nonneg ?_
  intro q hq
  rcases List.mem_map.1 hq with ⟨x, _, rfl⟩
  exact mul_self_nonneg x

lemma sumSquares_eq_zero_of_allzero {xs : List ℚ} (h : ∀ x ∈ xs, x = 0) :
    sumSquares xs = 0 := by
  refine List.sum_eq_zero ?_
  intro q hq
  rcases List.mem_map.1 hq with ⟨x, hx, rfl⟩
  rw [h x hx, mul_zero]

lemma rmsVal_nonneg (xs : List ℚ) : 0 ≤ rmsVal xs := Real.sqrt_nonneg _

lemma rmsOpt_of_ne_nil {xs : List ℚ} (h : xs ≠ []) :
    rmsOpt xs = some (rmsVal xs) := by
  rw [rmsOpt, if_neg]
  simpa [List.length_eq_zero] using h

lemma is_speech_nil : is_speech ([] : List ℚ) = 1 := by
  rw [is_speech, rmsOpt]
  simp

/-- `is_speech` on a nonempty block, as a function of its RMS value. -/
lemma is_speech_of_ne_nil {xs : List ℚ} (h : xs ≠ []) :
    is_speech xs =
      (if rmsVal xs < (threshold : ℝ) then 0
       else if (threshold : ℝ) * 5 < rmsVal xs then 1
       else min ((rmsVal xs - (threshold : ℝ)) / ((threshold : ℝ) * 4)) 1) := by
  rw [is_speech, rmsOpt_of_ne_nil h]

/-- **C6 (amended).** For every nonempty audio block, `is_speech` returns
a probability in `[0,1]` computed from the block's RMS energy: `0.0` when
the RMS is below the silence threshold (in particular for a nonempty
block of all-zero samples), `1.0` when the RMS is at least 5 times the
threshold, and the linear interpolation
`(RMS - threshold) / (4 * threshold)` for RMS strictly between the
threshold and 5 times the threshold.  (The empty block is excluded: see
`is_speech_allzero_counterexample`.) -/
theorem is_speech_range (xs : List ℚ) (hne : xs ≠ []) :
    (0 ≤ is_speech xs ∧ is_speech xs ≤ 1) ∧
    (rmsVal xs < (threshold : ℝ) → is_speech xs = 0) ∧
    ((threshold : ℝ) * 5 ≤ rmsVal xs → is_speech xs = 1) ∧
    ((threshold : ℝ) < rmsVal xs → rmsVal xs < (threshold : ℝ) * 5 →
      is_speech xs = (rmsVal xs - (threshold : ℝ)) / ((threshold : ℝ) * 4)) ∧
    ((∀ x ∈ xs, x = 0) → is_speech xs = 0) := by
  have ht := threshold_posR
  rw [is_speech_of_ne_nil hne]
  set r := rmsVal xs with hr
  have hr0 : 0 ≤ r := rmsVal_nonneg xs
  refine ⟨?_, ?_, ?_, ?_, ?_⟩
  · by_cases h1 : r < (threshold : ℝ)
    · simp [h1]
    · rw [if_neg h1]
      by_cases h2 : (threshold : ℝ) * 5 < r
      · simp [h2]
      · rw [if_neg h2]
        constructor
        · refine le_min ?_ (by norm_num)
          exact div_nonneg (by linarith [not_lt.1 h1]) (by linarith)
        · exact min_le_right _ _
  · intro h1
    rw [if_pos h1]
  · intro h5
    by_cases h1 : r < (threshold : ℝ)
    · exact absurd h1 (not_lt.2 (le_trans (by linarith) h5))
    · rw [if_neg h1]
      rcases lt_or_eq_of_le h5 with h5' | h5'
      · rw [if_pos h5']
      · rw [if_neg (by rw [← h5']; exact lt_irrefl _)]
        rw [← h5']
        rw [show (threshold : ℝ) * 5 - (threshold : ℝ) = (threshold : ℝ) * 4 by ring]
        rw [div_self (by linarith), min_self]
  · intro hlo hhi
    rw [if_neg (not_lt.2 (le_of_lt hlo)), if_neg (not_lt.2 (le_of_lt hhi))]
    refine min_eq_left (le_of_lt ?_)
    rw [div_lt_one (by linarith)]
    linarith
  · intro hz
    have hss : sumSquares xs = 0 := sumSquares_eq_zero_of_allzero hz
    have : r = 0 := by
      rw [hr, rmsVal, hss]
      simp
    rw [if_pos (by rw [this]; exact ht)]

/-- Counterexample for C6 as stated over *every* block: the empty block
consists entirely of zero samples (vacuously), yet `is_speech` returns
`1`, not `0` — the NaN RMS defeats the `rms < threshold` test and
`f32::min(NaN, 1.0)` yields `1.0`. -/
theorem is_speech_allzero_counterexample :
    (∀ x ∈ ([] : List ℚ), x = 0) ∧ is_speech ([] : List ℚ) ≠ 0 := by
  refine ⟨by simp, ?_⟩
  rw [is_speech_nil]
  norm_num

/-- Witness for C6: the range facts instantiated at the concrete nonempty
block `[1/100]`. -/
theorem is_speech_range_witness :
    ([(1 : ℚ) / 100] ≠ ([] : List ℚ)) ∧
    (0 ≤ is_speech [(1 : ℚ) / 100] ∧ is_speech [(1 : ℚ) / 100] ≤ 1) :=
  ⟨by simp, (is_speech_range [(1 : ℚ) / 100] (by simp)).1⟩

/-- **C9 (amended).** On the empty block, `is_speech` divides the sum of
squares by the sample count without guarding against zero, so the
computed RMS is an IEEE NaN (`rmsOpt [] = none`); however the NaN does
not escape: both threshold comparisons against NaN are false and Rust's
`f32::min(NaN, 1.0)` returns `1.0`, so `is_speech` returns `1.0` — a
value inside `[0,1]`.  The all-zero ⇒ `0.0` property (and the RMS
characterisation) therefore holds only under the precondition that the
block is non-empty. -/
theorem is_speech_empty_nan :
    rmsOpt ([] : List ℚ) = none ∧ is_speech ([] : List ℚ) = 1 ∧
      is_speech ([] : List ℚ) ≠ 0 := by
  refine ⟨by rw [rmsOpt]; simp, is_speech_nil, ?_⟩
  rw [is_speech_nil]
  norm_num

/-- Counterexample for C9 as stated (the claim asserts the empty block
produces NaN "rather than a probability in `[0,1]`"): the returned value
is `1`, which lies in `[0,1]`. -/
theorem is_speech_empty_counterexample :
    0 ≤ is_speech ([] : List ℚ) ∧ is_speech ([] : List ℚ) ≤ 1 := by
  rw [is_speech_nil]
  norm_num

/-! ### The frame decision of `get_speech_timestamps`

The loop of `get_speech_timestamps` only uses `is_speech(chunk)? > 0.5`.
`speechFrameB` is that Boolean, made computable by comparing squared
quantities instead of the real-valued square root; `speechFrameB_iff`
proves it extensionally equal to the source-level test (for the empty
chunk the NaN behaviour of `is_speech` gives `1 > 0.5`, hence `true`;
`List.chunks` never yields an empty chunk, so that case is unreachable
anyway). -/
def speechFrameB (chunk : List ℚ) : Bool :=
  if chunk.isEmpty then true
  else decide (9 * threshold ^ 2 * chunk.length < sumSquares chunk)

lemma speechFrameB_iff (chunk : List ℚ) :
    speechFrameB chunk = true ↔ (1 / 2 : ℝ) < is_speech chunk := by
  rcases Decidable.em (chunk = []) with hc | hc
  · subst hc
    simp [speechFrameB, is_speech_nil]
    norm_num
  · have hlen : 0 < chunk.length := List.length_pos.2 hc
    have ht := threshold_posR
    have hr0 := rmsVal_nonneg chunk
    have key : (1 / 2 : ℝ) < is_speech chunk ↔
        (threshold : ℝ) * 3 < rmsVal chunk := by
      rw [is_speech_of_ne_nil hc]
      set r := rmsVal chunk with hrdef
      by_cases h1 : r < (threshold : ℝ)
      · rw [if_pos h1]
        constructor
        · intro h; norm_num at h
        · intro h; exfalso; linarith
      · rw [if_neg h1]
        by_cases h2 : (threshold : ℝ) * 5 < r
        · rw [if_pos h2]
          constructor
          · intro _; linarith
          · intro _; norm_num
        · rw [if_neg h2]
          rw [lt_min_iff]
          constructor
          · rintro ⟨h3, -⟩
            rw [lt_div_iff (by linarith)] at h3
            linarith
          · intro h3
            refine ⟨?_, by norm_num⟩
            rw [lt_div_iff (by linarith)]
            linarith
    rw [key]
    have hsq : (threshold : ℝ) * 3 < rmsVal chunk ↔
        ((threshold : ℝ) * 3) ^ 2 <
          (sumSquares chunk : ℝ) / (chunk.length : ℝ) := by
      rw [rmsVal, Real.lt_sqrt (by linarith)]
    have hlenR : (0 : ℝ) < (chunk.length : ℝ) := by
      exact_mod_cast hlen
    rw [hsq, lt_div_iff hlenR]
    rw [speechFrameB, if_neg (by simpa [List.isEmpty_iff] using hc)]
    rw [decide_eq_true_iff]
    constructor
    · intro h
      have : ((9 * threshold ^ 2 * chunk.length : ℚ) : ℝ) <
          ((sumSquares chunk : ℚ) : ℝ) := by exact_mod_cast h
      push_cast at this
      nlinarith [this]
    · intro h
      have : ((9 * threshold ^ 2 * chunk.length : ℚ) : ℝ) <
          ((sumSquares chunk : ℚ) : ℝ) := by
        push_cast
        nlinarith [h]
      exact_mod_cast this

/-! ### `get_speech_timestamps` (`vad.rs` lines 103–214)

Constants: `SAMPLE_RATE = 16000.0`, `FRAME_SIZE = 512` (named
`VAD_FRAME_SIZE` here to avoid clashing with the denoiser frame),
`MIN_SPEECH_FRAMES = 5`.  Times are exact rationals; the Rust code
computes them in `f32` (`(idx * 512) as f32 / 16000.0`), whose rounding
error (`< 2^-24` relatively) never affects the `<=`/`max` comparisons of
the merge pass because distinct frame times differ by `512/16000`.
`frame_ms = (512/16000*1000) as usize` evaluates to `32` both in `f32`
(the rounding is upward) and in the exact model. -/

def VAD_FRAME_SIZE : ℕ := 512

def MIN_SPEECH_FRAMES : ℕ := 5

def SAMPLE_RATE : ℚ := 16000

/-- `audio.chunks(n)`: consecutive chunks of length `n`, the last chunk
possibly shorter, no empty chunks.  (Rust panics on `n = 0`; the model
returns `[]` — the only call site uses `n = 512`.) -/
def chunksOf (n : ℕ) (l : List ℚ) : List (List ℚ) :=
  if _h : l.isEmpty ∨ n = 0 then [] else l.take n :: chunksOf n (l.drop n)
termination_by l.length
decreasing_by
  rcases l with _ | ⟨a, t⟩
  · simp at _h
  · simp only [List.length_drop]
    have : n ≠ 0 := by
      intro hn
      exact _h (Or.inr hn)
    simp only [List.length_cons]
    omega

/-- The mutable loop state of `get_speech_timestamps`. -/
structure VadSt where
  segments : List (ℚ × ℚ)
  speechStart : Option ℕ
  consecutive : ℕ
  silence : ℕ
deriving DecidableEq

/-- One iteration of the frame loop (the four-way `match` on
`(is_speech, speech_start)`); `pf` is `padding_frames`, `i` the frame
index, `b` the frame's speech decision. -/
def vadStep (pf i : ℕ) (b : Bool) (st : VadSt) : VadSt :=
  match b, st.speechStart with
  | true, none => { st with consecutive := 1, speechStart := some i, silence := 0 }
  | true, some _ => { st with consecutive := st.consecutive + 1, silence := 0 }
  | false, some s =>
      if pf < st.silence + 1 then
        { segments :=
            if MIN_SPEECH_FRAMES ≤ st.consecutive then
              st.segments ++
                [((((s - pf) * VAD_FRAME_SIZE : ℕ) : ℚ) / SAMPLE_RATE,
                  (((i * VAD_FRAME_SIZE : ℕ) : ℚ)) / SAMPLE_RATE)]
            else st.segments,
          speechStart := none, consecutive := 0, silence := 0 }
      else { st with silence := st.silence + 1 }
  | false, none => st

def vadRun (pf : ℕ) : ℕ → VadSt → List Bool → VadSt
  | _, st, [] => st
  | i, st, b :: rest => vadRun pf (i + 1) (vadStep pf i b st) rest

/-- The trailing-segment check after the frame loop (`vad.rs` lines
176–183): if the audio ended mid-speech and the run was long enough,
close the segment at the end of the audio. -/
def vadFinal (pf audioLen : ℕ) (st : VadSt) : List (ℚ × ℚ) :=
  match st.speechStart with
  | some s =>
      if MIN_SPEECH_FRAMES ≤ st.consecutive then
        st.segments ++
          [((((s - pf) * VAD_FRAME_SIZE : ℕ) : ℚ) / SAMPLE_RATE,
            (audioLen : ℚ) / SAMPLE_RATE)]
      else st.segments
  | none => st.segments

/-- The merge pass (`vad.rs` lines 187–202), with the accumulator kept in
reverse order so that the Rust `last_mut` is the head: a segment starting
no later than the previous end extends the previous segment's end to the
max; otherwise it is pushed. -/
def mergeRev : List (ℚ × ℚ) → List (ℚ × ℚ) → List (ℚ × ℚ)
  | acc, [] => acc.reverse
  | [], seg :: rest => mergeRev [seg] rest
  | (ls, le) :: accT, (s, e) :: rest =>
      if s ≤ le then mergeRev ((ls, max e le) :: accT) rest
      else mergeRev ((s, e) :: (ls, le) :: accT) rest

def mergeSegments (segs : List (ℚ × ℚ)) : List (ℚ × ℚ) := mergeRev [] segs

/-- `VADManager::get_speech_timestamps(audio, padding_ms)`. -/
def get_speech_timestamps (audio : List ℚ) (padding_ms : ℕ) : List (ℚ × ℚ) :=
  let frame_ms := VAD_FRAME_SIZE * 1000 / 16000
  let padding_frames := padding_ms / frame_ms
  let decisions := (chunksOf VAD_FRAME_SIZE audio).map speechFrameB
  let st := vadRun padding_frames 0 ⟨[], none, 0, 0⟩ decisions
  mergeSegments (vadFinal padding_frames audio.length st)

/-- The merge pass always produces a strictly ordered, non-overlapping
list: a new segment is pushed only when its start is strictly past the
accumulated end, and later merges only move ends of the most recent
segment. -/
lemma mergeRev_chain :
    ∀ (segs acc : List (ℚ × ℚ)),
      List.Chain' (fun a b : ℚ × ℚ => b.2 < a.1) acc →
      List.Chain' (fun a b : ℚ × ℚ => a.2 < b.1) (mergeRev acc segs) := by
  intro segs
  induction segs with
  | nil =>
      intro acc hacc
      rw [mergeRev]
      rw [List.chain'_reverse]
      exact hacc
  | cons seg rest ih =>
      intro acc hacc
      rcases seg with ⟨s, e⟩
      rcases acc with _ | ⟨⟨ls, le⟩, accT⟩
      · rw [mergeRev]
        exact ih [(s, e)] (List.chain'_singleton _)
      · rw [mergeRev]
        by_cases hle : s ≤ le
        · rw [if_pos hle]
          refine ih _ ?_
          rcases accT with _ | ⟨x, t⟩
          · exact List.chain'_singleton _
          · rw [List.chain'_cons] at hacc ⊢
            exact ⟨hacc.1, hacc.2⟩
        · rw [if_neg hle]
          refine ih _ ?_
          rw [List.chain'_cons]
          exact ⟨not_le.1 hle, hacc⟩

/-- On an already ordered segment list the merge pass changes nothing:
every segment starts strictly after the previous end, so every iteration
takes the push branch. -/
lemma mergeRev_of_chain :
    ∀ (segs acc : List (ℚ × ℚ)),
      List.Chain' (fun a b : ℚ × ℚ => a.2 < b.1) segs →
      (∀ a ∈ acc.head?, ∀ y ∈ segs.head?, a.2 < y.1) →
      mergeRev acc segs = acc.reverse ++ segs := by
  intro segs
  induction segs with
  | nil =>
      intro acc _ _
      rw [mergeRev]
      simp
  | cons y rest ih =>
      intro acc hchain hhead
      have hcons := List.chain'_cons'.1 hchain
      rcases acc with _ | ⟨⟨ls, le⟩, accT⟩
      · rcases y with ⟨s, e⟩
        rw [mergeRev]
        rw [ih [(s, e)] hcons.2 ?_]
        · simp
        · intro a ha z hz
          simp only [List.head?_cons, Option.mem_def, Option.some.injEq] at ha
          subst ha
          exact hcons.1 z hz
      · rcases y with ⟨s, e⟩
        have hlt : le < s := by
          refine hhead (ls, le) ?_ (s, e) ?_ <;> simp
        rw [mergeRev, if_neg (not_le.2 hlt)]
        rw [ih ((s, e) :: (ls, le) :: accT) hcons.2 ?_]
        · simp
        · intro a ha z hz
          simp only [List.head?_cons, Option.mem_def, Option.some.injEq] at ha
          subst ha
          exact hcons.1 z hz

lemma mergeSegments_chain (l : List (ℚ × ℚ)) :
    List.Chain' (fun a b : ℚ × ℚ => a.2 < b.1) (mergeSegments l) :=
  mergeRev_chain l [] (by simp)

lemma mergeSegments_idem (l : List (ℚ × ℚ)) :
    mergeSegments (mergeSegments l) = mergeSegments l := by
  have h := mergeRev_of_chain (mergeSegments l) [] (mergeSegments_chain l)
    (by simp)
  simpa [mergeSegments] using h

/-- **C8.** For every input waveform and padding, the segment list
returned by `get_speech_timestamps` is time-ordered and non-overlapping
after the merge step (each segment ends strictly before the next one
starts), and the merge step is idempotent: re-running the merge pass on
the returned list yields the identical list. -/
theorem vad_segments_ordered_idempotent (audio : List ℚ) (padding_ms : ℕ) :
    List.Chain' (fun a b : ℚ × ℚ => a.2 < b.1)
      (get_speech_timestamps audio padding_ms) ∧
    mergeSegments (get_speech_timestamps audio padding_ms) =
      get_speech_timestamps audio padding_ms := by
  rw [get_speech_timestamps]
  exact ⟨mergeSegments_chain _, mergeSegments_idem _⟩

/-! ### The C7 scenario: a synthetic 3-second 16 kHz waveform

Speech (amplitude-1 samples) exactly in `[1.0s, 2.0s)` and
`[2.3s, 3.0s)`, silence (zero samples) elsewhere. -/

def syntheticWaveform : List ℚ :=
  List.replicate 16000 0 ++ (List.replicate 16000 1 ++
    (List.replicate 4800 0 ++ List.replicate 11200 1))

lemma chunksOf_nil (n : ℕ) : chunksOf n ([] : List ℚ) = [] := by
  rw [chunksOf]
  simp

lemma chunksOf_cons_of_length_eq {n : ℕ} (hn : 0 < n) {l1 : List ℚ}
    (h : l1.length = n) (rest : List ℚ) :
    chunksOf n (l1 ++ rest) = l1 :: chunksOf n rest := by
  cases h
  rw [chunksOf, dif_neg]
  · rw [List.take_left, List.drop_left]
  · rintro (he | h0)
    · rw [List.isEmpty_iff, List.append_eq_nil] at he
      rw [he.1] at hn
      simp at hn
    · omega

lemma chunksOf_replicate {n : ℕ} (hn : 0 < n) (k : ℕ) (x : ℚ)
    (rest : List ℚ) :
    chunksOf n (List.replicate (k * n) x ++ rest)
      = List.replicate k (List.replicate n x) ++ chunksOf n rest := by
  induction k with
  | zero => simp
  | succ k ih =>
      rw [show (k + 1) * n = n + k * n by ring, List.replicate_add,
        List.append_assoc,
        chunksOf_cons_of_length_eq hn (List.length_replicate n x) _, ih]
      rfl

lemma chunksOf_small {n : ℕ} {l : List ℚ} (h0 : l ≠ []) (h : l.length ≤ n) :
    chunksOf n l = [l] := by
  rw [chunksOf, dif_neg]
  · rw [List.take_of_length_le h, List.drop_eq_nil_of_le h, chunksOf_nil]
  · rintro (he | h0')
    · exact h0 (List.isEmpty_iff.1 he)
    · rw [h0', Nat.le_zero, List.length_eq_zero] at h
      exact h0 h

/-- The 94 frames of the synthetic waveform: 31 silent frames, a mixed
frame at the 1 s boundary, 30 loud frames, a mixed frame at the 2 s
boundary, 8 silent frames, a mixed frame at the 2.3 s boundary, 21 loud
frames, and the final 384-sample partial frame. -/
lemma syntheticWaveform_chunks :
    chunksOf VAD_FRAME_SIZE syntheticWaveform =
      List.replicate 31 (List.replicate 512 (0 : ℚ)) ++
        ((List.replicate 128 0 ++ List.replicate 384 1) ::
          (List.replicate 30 (List.replicate 512 (1 : ℚ)) ++
            ((List.replicate 256 1 ++ List.replicate 256 0) ::
              (List.replicate 8 (List.replicate 512 (0 : ℚ)) ++
                ((List.replicate 448 0 ++ List.replicate 64 1) ::
                  (List.replicate 21 (List.replicate 512 (1 : ℚ)) ++
                    [List.replicate 384 1])))))) := by
  have e0 : syntheticWaveform =
      List.replicate (31 * 512) (0 : ℚ) ++
        ((List.replicate 128 0 ++ List.replicate 384 1) ++
          (List.replicate (30 * 512) (1 : ℚ) ++
            ((List.replicate 256 1 ++ List.replicate 256 0) ++
              (List.replicate (8 * 512) (0 : ℚ) ++
                ((List.replicate 448 0 ++ List.replicate 64 1) ++
                  (List.replicate (21 * 512) (1 : ℚ) ++
                    List.replicate 384 1)))))) := by
    rw [syntheticWaveform]
    rw [show List.replicate 16000 (0 : ℚ)
          = List.replicate (31 * 512) 0 ++ List.replicate 128 0 by
        rw [← List.replicate_add]]
    rw [show List.replicate 16000 (1 : ℚ)
          = List.replicate 384 1 ++
              (List.replicate (30 * 512) 1 ++ List.replicate 256 1) by
        rw [← List.replicate_add, ← List.replicate_add]]
    rw [show List.replicate 4800 (0 : ℚ)
          = List.replicate 256 0 ++
              (List.replicate (8 * 512) 0 ++ List.replicate 448 0) by
        rw [← List.replicate_add, ← List.replicate_add]]
    rw [show List.replicate 11200 (1 : ℚ)
          = List.replicate 64 1 ++
              (List.replicate (21 * 512) 1 ++ List.replicate 384 1) by
        rw [← List.replicate_add, ← List.replicate_add]]
    simp only [List.append_assoc]
  rw [e0]
  simp only [VAD_FRAME_SIZE]
  rw [chunksOf_replicate (by norm_num) 31 0 _]
  rw [chunksOf_cons_of_length_eq (by norm_num)
    (by simp only [List.length_append, List.length_replicate]) _]
  rw [chunksOf_replicate (by norm_num) 30 1 _]
  rw [chunksOf_cons_of_length_eq (by norm_num)
    (by simp only [List.length_append, List.length_replicate]) _]
  rw [chunksOf_replicate (by norm_num) 8 0 _]
  rw [chunksOf_cons_of_length_eq (by norm_num)
    (by simp only [List.length_append, List.length_replicate]) _]
  rw [chunksOf_replicate (by norm_num) 21 1 _]
  rw [chunksOf_small
    (List.ne_nil_of_length_pos (by simp only [List.length_replicate]; norm_num))
    (by simp only [List.length_replicate]; norm_num)]

lemma not_isEmpty_of_length_pos {l : List ℚ} (h : 0 < l.length) :
    ¬l.isEmpty = true := by
  intro he
  rw [List.isEmpty_iff] at he
  rw [he] at h
  simp at h

lemma sumSquares_append (a b : List ℚ) :
    sumSquares (a ++ b) = sumSquares a + sumSquares b := by
  simp [sumSquares]

lemma sumSquares_replicate (n : ℕ) (x : ℚ) :
    sumSquares (List.replicate n x) = n * (x * x) := by
  simp [sumSquares, List.map_replicate, List.sum_replicate, nsmul_eq_mul]

lemma speechFrameB_silent_frame :
    speechFrameB (List.replicate 512 (0 : ℚ)) = false := by
  rw [speechFrameB, if_neg (not_isEmpty_of_length_pos
    (by simp only [List.length_replicate]; norm_num))]
  simp only [decide_eq_false_iff_not, sumSquares_replicate,
    List.length_replicate]
  norm_num [threshold]

lemma speechFrameB_loud_frame :
    speechFrameB (List.replicate 512 (1 : ℚ)) = true := by
  rw [speechFrameB, if_neg (not_isEmpty_of_length_pos
    (by simp only [List.length_replicate]; norm_num))]
  simp only [decide_eq_true_eq, sumSquares_replicate, List.length_replicate]
  norm_num [threshold]

lemma speechFrameB_mixed1 :
    speechFrameB (List.replicate 128 (0 : ℚ) ++ List.replicate 384 1)
      = true := by
  rw [speechFrameB, if_neg (not_isEmpty_of_length_pos
    (by simp only [List.length_append, List.length_replicate]; norm_num))]
  simp only [decide_eq_true_eq, sumSquares_append, sumSquares_replicate,
    List.length_append, List.length_replicate]
  norm_num [threshold]

lemma speechFrameB_mixed2 :
    speechFrameB (List.replicate 256 (1 : ℚ) ++ List.replicate 256 0)
      = true := by
  rw [speechFrameB, if_neg (not_isEmpty_of_length_pos
    (by simp only [List.length_append, List.length_replicate]; norm_num))]
  simp only [decide_eq_true_eq, sumSquares_append, sumSquares_replicate,
    List.length_append, List.length_replicate]
  norm_num [threshold]

lemma speechFrameB_mixed3 :
    speechFrameB (List.replicate 448 (0 : ℚ) ++ List.replicate 64 1)
      = true := by
  rw [speechFrameB, if_neg (not_isEmpty_of_length_pos
    (by simp only [List.length_append, List.length_replicate]; norm_num))]
  simp only [decide_eq_true_eq, sumSquares_append, sumSquares_replicate,
    List.length_append, List.length_replicate]
  norm_num [threshold]

lemma speechFrameB_tail_frame :
    speechFrameB (List.replicate 384 (1 : ℚ)) = true := by
  rw [speechFrameB, if_neg (not_isEmpty_of_length_pos
    (by simp only [List.length_replicate]; norm_num))]
  simp only [decide_eq_true_eq, sumSquares_replicate, List.length_replicate]
  norm_num [threshold]

lemma syntheticWaveform_decisions :
    (chunksOf VAD_FRAME_SIZE syntheticWaveform).map speechFrameB =
      List.replicate 31 false ++ (true :: (List.replicate 30 true ++
        (true :: (List.replicate 8 false ++
          (true :: (List.replicate 21 true ++ [true])))))) := by
  rw [syntheticWaveform_chunks]
  simp only [List.map_append, List.map_cons, List.map_nil,
    List.map_replicate, speechFrameB_silent_frame, speechFrameB_loud_frame,
    speechFrameB_mixed1, speechFrameB_mixed2, speechFrameB_mixed3,
    speechFrameB_tail_frame]

set_option maxRecDepth 4000 in
/-- The full run of `get_speech_timestamps` on the synthetic waveform with
500 ms padding: one segment, `[0.512 s, 3.0 s]`. -/
lemma vad_scenario_run :
    get_speech_timestamps syntheticWaveform 500 = [((64 : ℚ) / 125, 3)] := by
  rw [get_speech_timestamps]
  rw [syntheticWaveform_decisions]
  have hpf : 500 / (VAD_FRAME_SIZE * 1000 / 16000) = 15 := by
    norm_num [VAD_FRAME_SIZE]
  rw [hpf]
  have hlen : syntheticWaveform.length = 48000 := by
    simp only [syntheticWaveform, List.length_append, List.length_replicate]
  rw [hlen]
  have hrun : vadRun 15 0 ⟨[], none, 0, 0⟩
      (List.replicate 31 false ++ (true :: (List.replicate 30 true ++
        (true :: (List.replicate 8 false ++
          (true :: (List.replicate 21 true ++ [true])))))))
      = ⟨[], some 31, 55, 0⟩ := by rfl
  rw [hrun]
  rw [show vadFinal 15 48000 ⟨[], some 31, 55, 0⟩
        = [((8192 : ℚ) / 16000, (48000 : ℚ) / 16000)] by
    rw [vadFinal]
    norm_num [MIN_SPEECH_FRAMES, VAD_FRAME_SIZE, SAMPLE_RATE]]
  rw [mergeSegments, mergeRev, mergeRev]
  norm_num

/-- Counterexample for C7 as stated: on the synthetic waveform the merged
segment is `[0.512 s, 3.0 s]`, not `[0.5 s, 3.0 s]` — segment starts are
snapped to the 32 ms frame grid (`0.5 / 0.032` is not an integer, so no
waveform can produce a segment starting at exactly `0.5 s`). -/
theorem vad_scenario_counterexample :
    get_speech_timestamps syntheticWaveform 500 ≠ [((1 : ℚ) / 2, 3)] := by
  rw [vad_scenario_run]
  intro h
  have := List.head_eq_of_cons_eq h
  rw [Prod.mk.injEq] at this
  exact absurd this.1 (by norm_num)

/-- **C7 (amended).** For the synthetic 16 kHz waveform with speech
exactly in `[1.0s, 2.0s]` and `[2.3s, 3.0s]` and silence elsewhere,
`get_speech_timestamps` with `padding_ms = 500` returns exactly one
segment `[0.512 s, 3.0 s]` (in the exact-arithmetic model; the `f32` code
rounds `0.512` to the nearest float): the 0.3 s gap between the two
speech bursts is shorter than the padding window, so the state machine
never closes the first segment and the two bursts emerge as a single
segment, whose padded start is snapped to the 32 ms frame grid
(`16 * 512 / 16000 = 0.512`), not `0.5 s`. -/
theorem vad_scenario_single_segment :
    get_speech_timestamps syntheticWaveform 500 = [((64 : ℚ) / 125, 3)] :=
  vad_scenario_run

/-! ## Recording session pipeline (`commands/recording.rs`)

The cpal stream, the WAV writer and the Tauri event system are external;
the pipeline's dataflow is modelled over the sequence of capture-callback
blocks.  The session's denoiser is the abstract `Denoiser` above. -/

/-- Mono downmix in the capture callback: average each `channels`-sized
group of interleaved samples; identity for mono input
(`recording.rs` lines 277–283). -/
def downmix (channels : ℕ) (data : List ℚ) : List ℚ :=
  if 1 < channels then
    (chunksOf channels data).map (fun c => c.sum / (channels : ℚ))
  else data

/-- One invocation of the capture callback (`recording.rs` lines
270–297): the raw block is sent to the persistence (file) channel
*first*; then the block is downmixed to mono, denoised if a denoiser is
present, and the result is sent to the transcription channel.  Returns
(file message, transcription message, updated denoiser).  (The
`try_lock` on the denoiser slot is modelled as succeeding; when it fails
the code sends the un-denoised mono block — either way nothing but the
raw block reaches persistence.) -/
def captureCallback {σ : Type} (procFrame : σ → List ℚ → σ × List ℚ)
    (channels : ℕ) (den : Option (Denoiser σ)) (data : List ℚ) :
    List ℚ × List ℚ × Option (Denoiser σ) :=
  let fileMsg := data
  let mono := downmix channels data
  match den with
  | some d =>
      let r := d.process procFrame mono
      (fileMsg, r.2, some r.1)
  | none => (fileMsg, mono, none)

/-- The capture callback iterated over a session's blocks, threading the
denoiser state and collecting the messages sent to the two channels. -/
def runCapture {σ : Type} (procFrame : σ → List ℚ → σ × List ℚ)
    (channels : ℕ) :
    Option (Denoiser σ) → List (List ℚ) →
      List (List ℚ) × List (List ℚ) × Option (Denoiser σ)
  | den, [] => ([], [], den)
  | den, blk :: rest =>
      let c := captureCallback procFrame channels den blk
      let r := runCapture procFrame channels c.2.2 rest
      (c.1 :: r.1, c.2.1 :: r.2.1, r.2.2)

/-- The messages received by the writer thread over a whole session:
exactly the per-callback file messages.  The ~0.5 s lead-in silence is
sent only to the transcription channel (`recording.rs` lines 85–92), and
`stop_recording` drops the file sender *before* injecting the ~1 s stop
silence into the transcription channel (`recording.rs` lines 455–468),
so neither appears here. -/
def persistenceMessages {σ : Type} (procFrame : σ → List ℚ → σ × List ℚ)
    (channels : ℕ) (den : Option (Denoiser σ)) (blocks : List (List ℚ)) :
    List (List ℚ) :=
  (runCapture procFrame channels den blocks).1

/-- The messages on the transcription channel over a whole session: the
lead-in silence (`(sample_rate as f32 * 0.5) as usize = ⌊rate / 2⌋`
samples), the per-callback processed blocks, then the 1 s stop
silence. -/
def transcriptionMessages {σ : Type} (procFrame : σ → List ℚ → σ × List ℚ)
    (channels rate : ℕ) (den : Option (Denoiser σ))
    (blocks : List (List ℚ)) : List (List ℚ) :=
  List.replicate (rate / 2) 0 ::
    ((runCapture procFrame channels den blocks).2.1 ++
      [List.replicate rate 0])

/-- The writer thread (`recording.rs` lines 94–104): append every sample
of every received message to the WAV file, in order. -/
def wavFileSamples {σ : Type} (procFrame : σ → List ℚ → σ × List ℚ)
    (channels : ℕ) (den : Option (Denoiser σ)) (blocks : List (List ℚ)) :
    List ℚ :=
  (persistenceMessages procFrame channels den blocks).join

lemma runCapture_fst {σ : Type} (procFrame : σ → List ℚ → σ × List ℚ)
    (channels : ℕ) :
    ∀ (blocks : List (List ℚ)) (den : Option (Denoiser σ)),
      (runCapture procFrame channels den blocks).1 = blocks := by
  intro blocks
  induction blocks with
  | nil => intro den; rfl
  | cons blk rest ih =>
      intro den
      rcases den with _ | d <;>
        simp [runCapture, captureCallback, ih]

/-- **C1.** For every recording session, the persisted samples are
exactly the concatenation of the capture-callback blocks delivered before
`stop()` — the capture callback sends the unmodified block to the
persistence channel before any downmix or denoising, the writer thread
appends every received sample, and neither the lead-in silence nor the
stop-time silence (both of which go only to the transcription channel)
ever reaches the persistence channel.  Consequently the persisted sample
count is the sum of the block lengths, and the saved file is the
untouched, un-denoised capture regardless of the denoiser state. -/
theorem persisted_file_is_raw_capture {σ : Type}
    (procFrame : σ → List ℚ → σ × List ℚ) (channels rate : ℕ)
    (den : Option (Denoiser σ)) (blocks : List (List ℚ)) :
    wavFileSamples procFrame channels den blocks = blocks.join ∧
    (wavFileSamples procFrame channels den blocks).length
      = (blocks.map List.length).sum ∧
    transcriptionMessages procFrame channels rate den blocks
      = List.replicate (rate / 2) 0 ::
          ((runCapture procFrame channels den blocks).2.1 ++
            [List.replicate rate 0]) := by
  have hjoin : wavFileSamples procFrame channels den blocks = blocks.join := by
    rw [wavFileSamples, persistenceMessages, runCapture_fst]
  exact ⟨hjoin, by rw [hjoin, List.length_join], rfl⟩

/-! ## Session slot and engine-switch commands
(`commands/recording.rs`, `commands/models.rs`, `commands/settings.rs`,
`state.rs`)

`AudioState` is modelled with the fields these claims concern: the
mutex-guarded optional recording handle (a live session is abstracted to
an identifier), the currently loaded whisper and parakeet models, and
the active-engine selector.  Model loading
(`WhisperManager::initialize` / `ParakeetManager::initialize`) performs
file I/O and GPU work and is abstracted as an oracle returning an
`Except` outcome; on success the oracle also yields the loaded model
identifier (`whisper.rs` lines 220–252 store `current_model` only after
a successful load). -/

inductive EngineSel | whisper | parakeet
deriving DecidableEq

structure AppModel where
  recordingHandle : Option ℕ
  whisperModel : Option String
  parakeetModel : Option String
  activeEngine : EngineSel
deriving DecidableEq

/-- The effect of `start_recording` on the session slot
(`commands/recording.rs` lines 14–317): after the device, output file,
channels, worker threads and stream are set up (external steps, assumed
to succeed here), the new handle is stored by
`*state.recording_handle.lock().unwrap() = Some(..)` (line 307).  There
is *no* occupancy check anywhere in the function: an existing handle is
silently overwritten (the previous session's stream, senders and thread
handles are dropped without being joined). -/
def start_recording_slot (st : AppModel) (fresh : ℕ) :
    AppModel × Except String String :=
  ({ st with recordingHandle := some fresh }, Except.ok "Recording started")

/-- The effect of `stop_recording` on the session slot
(`commands/recording.rs` lines 449–457): `handle.take()` empties the
slot before any teardown; with an empty slot the command fails with
"Not recording". -/
def stop_recording_slot (st : AppModel) : AppModel × Except String String :=
  match st.recordingHandle with
  | some _ => ({ st with recordingHandle := none }, Except.ok "stopped")
  | none => (st, Except.error "Not recording")

/-- Counterexample for C2: `start_recording` on an occupied slot does
*not* fail fast — it succeeds and silently replaces the open session. -/
theorem start_overwrites_open_session :
    (start_recording_slot ⟨some 0, none, none, EngineSel.whisper⟩ 1).2
        = Except.ok "Recording started" ∧
      (start_recording_slot
          ⟨some 0, none, none, EngineSel.whisper⟩ 1).1.recordingHandle
        = some 1 :=
  ⟨rfl, rfl⟩

/-- **C2 (amended).** The recording-session slot is a single
mutex-guarded optional, so at most one handle is stored at any time; but
`start_recording` performs no occupancy check: it unconditionally stores
the fresh handle (silently replacing — and dropping — any open session)
and succeeds.  `stop_recording` takes ownership out of the slot, leaving
it empty, before tearing the session down, and fails with
"Not recording" when the slot is empty. -/
theorem session_slot_lifecycle (st : AppModel) (fresh : ℕ) :
    ((start_recording_slot st fresh).1.recordingHandle = some fresh ∧
      (start_recording_slot st fresh).2 = Except.ok "Recording started") ∧
    (stop_recording_slot st).1.recordingHandle = none ∧
    (st.recordingHandle = none →
      (stop_recording_slot st).2 = Except.error "Not recording") ∧
    (∀ h : ℕ, st.recordingHandle = some h →
      (stop_recording_slot st).2 = Except.ok "stopped") := by
  refine ⟨⟨rfl, rfl⟩, ?_, ?_, ?_⟩
  · rcases hst : st.recordingHandle with _ | h <;>
      simp [stop_recording_slot, hst]
  · intro hnone
    simp [stop_recording_slot, hnone]
  · intro h hsome
    simp [stop_recording_slot, hsome]

/-- Witness for C2 (amended): the `stop` clauses at concrete states. -/
theorem session_slot_lifecycle_witness :
    (stop_recording_slot ⟨some 5, none, none, EngineSel.whisper⟩).2
        = Except.ok "stopped" ∧
      (stop_recording_slot ⟨none, none, none, EngineSel.whisper⟩).2
        = Except.error "Not recording" :=
  ⟨(session_slot_lifecycle ⟨some 5, none, none, EngineSel.whisper⟩ 0).2.2.2
      5 rfl,
   (session_slot_lifecycle ⟨none, none, none, EngineSel.whisper⟩ 0).2.2.1
      rfl⟩

/-- `switch_model` (`commands/models.rs` lines 22–35): rejected with
"Cannot switch models while recording" while the slot is occupied;
otherwise the whisper model is loaded through the oracle and replaced on
success (a failed load returns the error without storing a model). -/
def switch_model (initW : String → Except String String) (st : AppModel)
    (model_id : String) : AppModel × Except String String :=
  if st.recordingHandle.isSome then
    (st, Except.error "Cannot switch models while recording")
  else
    match initW model_id with
    | Except.ok msg =>
        ({ st with whisperModel := some model_id }, Except.ok msg)
    | Except.error e => (st, Except.error e)

/-- `init_parakeet` (`commands/models.rs` lines 45–53): *no* session
check.  On a successful load the parakeet model is replaced and the
active engine is unconditionally switched to Parakeet; a failed load
returns the error before the engine switch. -/
def init_parakeet (initP : Option String → Except String (String × String))
    (st : AppModel) (model_id : Option String) :
    AppModel × Except String String :=
  match initP model_id with
  | Except.ok r =>
      ({ st with parakeetModel := some r.2,
                 activeEngine := EngineSel.parakeet },
       Except.ok r.1)
  | Except.error e => (st, Except.error e)

/-- `set_active_engine` (`commands/settings.rs` lines 26–36): parse the
engine name (lowercased via the abstract `lowerStr`, standing for the
Unicode `str::to_lowercase`) and switch unconditionally — no session
check. -/
def set_active_engine (lowerStr : String → String) (st : AppModel)
    (engine : String) : AppModel × Except String String :=
  if lowerStr engine = "whisper" then
    ({ st with activeEngine := EngineSel.whisper },
     Except.ok "Engine switched to Whisper")
  else if lowerStr engine = "parakeet" then
    ({ st with activeEngine := EngineSel.parakeet },
     Except.ok "Engine switched to Parakeet")
  else
    (st, Except.error ("Unknown engine: " ++ engine))

/-- Counterexample for C3: with a recording session open, `init_parakeet`
(given a model that loads successfully) does not fail with an
EngineBusy-style error — it succeeds and switches the active engine to
Parakeet; likewise `set_active_engine` succeeds and switches the
selection.  Only `switch_model` checks the session slot. -/
theorem engine_switch_busy_counterexample :
    (init_parakeet (fun _ => Except.ok ("loaded", "ctc"))
          ⟨some 0, some "tiny", some "old", EngineSel.whisper⟩ none).2
        = Except.ok "loaded" ∧
      (init_parakeet (fun _ => Except.ok ("loaded", "ctc"))
          ⟨some 0, some "tiny", some "old", EngineSel.whisper⟩
          none).1.activeEngine
        = EngineSel.parakeet ∧
      (set_active_engine id
          ⟨some 0, some "tiny", some "old", EngineSel.whisper⟩
          "parakeet").2
        = Except.ok "Engine switched to Parakeet" ∧
      (set_active_engine id
          ⟨some 0, some "tiny", some "old", EngineSel.whisper⟩
          "parakeet").1.activeEngine
        = EngineSel.parakeet := by
  refine ⟨rfl, rfl, ?_, ?_⟩ <;>
    simp [set_active_engine]

/-- **C3 (amended).** While a recording session is open (the slot is
occupied), `switch_model` fails with the EngineBusy-style error
"Cannot switch models while recording" and leaves the whole state — in
particular the loaded model and active engine — intact.  The other two
switch entry points perform no session check: `init_parakeet` (when its
model loads successfully) succeeds and sets the active engine to
Parakeet, and `set_active_engine` succeeds and switches the selection,
even while recording. -/
theorem engine_switch_guards (initW : String → Except String String)
    (initP : Option String → Except String (String × String))
    (lowerStr : String → String) (st : AppModel) (mid : String)
    (pid : Option String) (hbusy : st.recordingHandle.isSome = true) :
    ((switch_model initW st mid).1 = st ∧
      (switch_model initW st mid).2
        = Except.error "Cannot switch models while recording") ∧
    (∀ msg loaded, initP pid = Except.ok (msg, loaded) →
      (init_parakeet initP st pid).2 = Except.ok msg ∧
      (init_parakeet initP st pid).1.activeEngine = EngineSel.parakeet) ∧
    (∀ ename, lowerStr ename = "parakeet" →
      (set_active_engine lowerStr st ename).2
          = Except.ok "Engine switched to Parakeet" ∧
      (set_active_engine lowerStr st ename).1.activeEngine
          = EngineSel.parakeet) := by
  refine ⟨⟨?_, ?_⟩, ?_, ?_⟩
  · rw [switch_model, if_pos hbusy]
  · rw [switch_model, if_pos hbusy]
  · intro msg loaded hld
    rw [init_parakeet, hld]
    exact ⟨rfl, rfl⟩
  · intro ename hlow
    rw [set_active_engine, hlow]
    rw [if_neg (by decide)]
    exact ⟨rfl, rfl⟩

/-- Witness for C3 (amended): the guard facts at a concrete busy state,
load oracle and engine name. -/
theorem engine_switch_guards_witness :
    (switch_model (fun _ => Except.ok "ok")
          ⟨some 0, some "tiny", some "old", EngineSel.whisper⟩ "base").2
        = Except.error "Cannot switch models while recording" ∧
      (init_parakeet (fun _ => Except.ok ("loaded", "ctc"))
          ⟨some 0, some "tiny", some "old", EngineSel.whisper⟩
          none).1.activeEngine
        = EngineSel.parakeet ∧
      (set_active_engine id
          ⟨some 0, some "tiny", some "old", EngineSel.whisper⟩
          "parakeet").1.activeEngine
        = EngineSel.parakeet := by
  have h := engine_switch_guards (fun _ => Except.ok "ok")
    (fun _ => Except.ok ("loaded", "ctc")) id
    ⟨some 0, some "tiny", some "old", EngineSel.whisper⟩ "base" none rfl
  exact ⟨h.1.2, (h.2.1 "loaded" "ctc" rfl).2, (h.2.2 "parakeet" rfl).2⟩

/-! ## Transcriber worker (Parakeet path) and `stop_recording`'s Parakeet
branch (`commands/recording.rs` lines 115–264 and 488–499)

The ASR engine is an abstract stateful oracle
`transcribe : σe → List ℚ → σe × Except (List Char) (List Char)`,
modelling `parakeet.transcribe_chunk(&chunk, sample_rate)` behind its
mutex (the engine state advances on every call, including failed ones).
In a session whose active engine is Parakeet every received message takes
the Parakeet branch of the worker, since the engine selector is read once
when the thread is spawned. -/

/-- `(sample_rate as f32 * 1.12) as usize`, modelled with exact rational
truncation (`1.12f32` exceeds `1.12` by under `5e-8`, which cannot move
the floor at any real sample rate). -/
def parakeetChunkSize (rate : ℕ) : ℕ := rate * 112 / 100

structure TranscriberSt (σe : Type) where
  eng : σe
  buffer : List ℚ
  emitted : List (List Char)
  session : List Char

/-- The inner `while buffer.len() >= parakeet_chunk_size` loop
(`recording.rs` lines 180–216), with structural fuel; fuel
`buffer.length` is sufficient because every iteration consumes at least
`pcs ≥ 1` samples (the guard requires `0 < pcs`, true whenever
`rate ≥ 1`).  When the buffer exceeds two chunks the oldest chunk is
dropped first (backpressure); a decode error is logged and skipped; a
nonempty decode is *both* emitted as a `TranscriptionChunk` and appended
to the session transcript. -/
def parakeetDrainFuel {σe : Type}
    (transcribe : σe → List ℚ → σe × Except (List Char) (List Char))
    (pcs : ℕ) : ℕ → TranscriberSt σe → TranscriberSt σe
  | 0, st => st
  | fuel + 1, st =>
      if 0 < pcs ∧ pcs ≤ st.buffer.length then
        let buf1 := if 2 * pcs < st.buffer.length
          then st.buffer.drop pcs else st.buffer
        let r := transcribe st.eng (buf1.take pcs)
        match r.2 with
        | Except.ok t =>
            if t = [] then
              parakeetDrainFuel transcribe pcs fuel
                ⟨r.1, buf1.drop pcs, st.emitted, st.session⟩
            else
              parakeetDrainFuel transcribe pcs fuel
                ⟨r.1, buf1.drop pcs, st.emitted ++ [t], st.session ++ t⟩
        | Except.error _ =>
            parakeetDrainFuel transcribe pcs fuel
              ⟨r.1, buf1.drop pcs, st.emitted, st.session⟩
      else st

def parakeetDrain {σe : Type}
    (transcribe : σe → List ℚ → σe × Except (List Char) (List Char))
    (pcs : ℕ) (st : TranscriberSt σe) : TranscriberSt σe :=
  parakeetDrainFuel transcribe pcs st.buffer.length st

/-- The receive loop (`while let Ok(samples) = whisper_rx.recv()`),
Parakeet branch: extend the buffer with the received message, then run
the chunk loop. -/
def parakeetLoop {σe : Type}
    (transcribe : σe → List ℚ → σe × Except (List Char) (List Char))
    (pcs : ℕ) : TranscriberSt σe → List (List ℚ) → TranscriberSt σe
  | st, [] => st
  | st, msg :: rest =>
      parakeetLoop transcribe pcs
        (parakeetDrain transcribe pcs
          ⟨st.eng, st.buffer ++ msg, st.emitted, st.session⟩) rest

/-- The post-closure drain (`recording.rs` lines 220–239): remaining
full windows of size `chunk_size = rate * 6` — the drain loop is shared
code and uses the *Whisper* window size even for Parakeet.  Nonempty
decodes are appended to the session transcript only; no
`TranscriptionChunk` is emitted. -/
def finalDrainFuel {σe : Type}
    (transcribe : σe → List ℚ → σe × Except (List Char) (List Char))
    (cs : ℕ) : ℕ → σe × List ℚ × List Char → σe × List ℚ × List Char
  | 0, s => s
  | fuel + 1, (eng, buf, sess) =>
      if 0 < cs ∧ cs ≤ buf.length then
        let r := transcribe eng (buf.take cs)
        match r.2 with
        | Except.ok t =>
            if t = [] then
              finalDrainFuel transcribe cs fuel (r.1, buf.drop cs, sess)
            else
              finalDrainFuel transcribe cs fuel (r.1, buf.drop cs, sess ++ t)
        | Except.error _ =>
            finalDrainFuel transcribe cs fuel (r.1, buf.drop cs, sess)
      else (eng, buf, sess)

/-- The final partial window (`recording.rs` lines 241–261): decoded only
if its duration `buffer.len() as f32 / sample_rate as f32` exceeds
`0.1` (modelled exactly as `rate < 10 * len`); a nonempty decode is
appended to the session transcript only. -/
def finalPartial {σe : Type}
    (transcribe : σe → List ℚ → σe × Except (List Char) (List Char))
    (rate : ℕ) (eng : σe) (buf : List ℚ) (sess : List Char) : List Char :=
  if buf ≠ [] ∧ rate < 10 * buf.length then
    match (transcribe eng buf).2 with
    | Except.ok t => if t = [] then sess else sess ++ t
    | Except.error _ => sess
  else sess

/-- The whole transcriber worker for a Parakeet session, as a function of
the messages received on the transcription channel.  Returns (emitted
`TranscriptionChunk` texts in emission order, final session
transcript). -/
def parakeetWorker {σe : Type}
    (transcribe : σe → List ℚ → σe × Except (List Char) (List Char))
    (rate : ℕ) (eng0 : σe) (msgs : List (List ℚ)) :
    List (List Char) × List Char :=
  let st := parakeetLoop transcribe (parakeetChunkSize rate)
    ⟨eng0, [], [], []⟩ msgs
  let d := finalDrainFuel transcribe (rate * 6) st.buffer.length
    (st.eng, st.buffer, st.session)
  (st.emitted, finalPartial transcribe rate d.1 d.2.1 d.2.2)

/-- The Parakeet branch of `stop_recording` (lines 488–499): the cleaned
session transcript, or the fixed "Recording saved." message when it is
empty. -/
def stop_parakeet_text (isWS isLow : Char → Bool)
    (upStr : Char → List Char) (session : List Char) : List Char :=
  if session = [] then "Recording saved.".toList
  else clean_transcript isWS isLow upStr session

lemma parakeetDrainFuel_inv {σe : Type}
    (transcribe : σe → List ℚ → σe × Except (List Char) (List Char))
    (pcs : ℕ) :
    ∀ (fuel : ℕ) (st : TranscriberSt σe),
      st.session = st.emitted.join →
      (parakeetDrainFuel transcribe pcs fuel st).session
        = (parakeetDrainFuel transcribe pcs fuel st).emitted.join := by
  intro fuel
  induction fuel with
  | zero => intro st h; exact h
  | succ fuel ih =>
      intro st h
      rw [parakeetDrainFuel]
      by_cases hc : 0 < pcs ∧ pcs ≤ st.buffer.length
      · rw [if_pos hc]
        cases hr : (transcribe st.eng
            ((if 2 * pcs < st.buffer.length
              then st.buffer.drop pcs else st.buffer).take pcs)).2 with
        | ok t =>
            by_cases ht : t = []
            · simp only [hr, ht, if_pos rfl]
              exact ih _ h
            · simp only [hr, if_neg ht]
              refine ih _ ?_
              simp [h]
        | error e =>
            simp only [hr]
            exact ih _ h
      · rw [if_neg hc]; exact h

lemma parakeetLoop_inv {σe : Type}
    (transcribe : σe → List ℚ → σe × Except (List Char) (List Char))
    (pcs : ℕ) :
    ∀ (msgs : List (List ℚ)) (st : TranscriberSt σe),
      st.session = st.emitted.join →
      (parakeetLoop transcribe pcs st msgs).session
        = (parakeetLoop transcribe pcs st msgs).emitted.join := by
  intro msgs
  induction msgs with
  | nil => intro st h; exact h
  | cons msg rest ih =>
      intro st h
      rw [parakeetLoop]
      exact ih _ (parakeetDrainFuel_inv transcribe pcs _ _ h)

lemma finalDrainFuel_extends {σe : Type}
    (transcribe : σe → List ℚ → σe × Except (List Char) (List Char))
    (cs : ℕ) :
    ∀ (fuel : ℕ) (eng : σe) (buf : List ℚ) (sess : List Char),
      sess <+: (finalDrainFuel transcribe cs fuel (eng, buf, sess)).2.2 := by
  intro fuel
  induction fuel with
  | zero => intro eng buf sess; exact List.prefix_rfl
  | succ fuel ih =>
      intro eng buf sess
      rw [finalDrainFuel]
      by_cases hc : 0 < cs ∧ cs ≤ buf.length
      · rw [if_pos hc]
        cases hr : (transcribe eng (buf.take cs)).2 with
        | ok t =>
            by_cases ht : t = []
            · simp only [hr, ht, if_pos rfl]
              exact ih _ _ _
            · simp only [hr, if_neg ht]
              exact List.IsPrefix.trans (List.prefix_append sess t) (ih _ _ _)
        | error e =>
            simp only [hr]
            exact ih _ _ _
      · rw [if_neg hc]

lemma finalPartial_extends {σe : Type}
    (transcribe : σe → List ℚ → σe × Except (List Char) (List Char))
    (rate : ℕ) (eng : σe) (buf : List ℚ) (sess : List Char) :
    sess <+: finalPartial transcribe rate eng buf sess := by
  rw [finalPartial]
  by_cases hc : buf ≠ [] ∧ rate < 10 * buf.length
  · rw [if_pos hc]
    cases hr : (transcribe eng buf).2 with
    | ok t =>
        by_cases ht : t = []
        · simp only [ht, if_pos rfl]
          exact List.prefix_rfl
        · simp only [if_neg ht]
          exact List.prefix_append sess t
    | error e => exact List.prefix_rfl
  · rw [if_neg hc]

/-- **C4 (amended).** For every Parakeet session: while the transcription
channel is open, a decoded text is appended to the session transcript
exactly when it is emitted as a `TranscriptionChunk`, so after the
receive loop the session transcript equals the concatenation, in
emission order, of all emitted chunk texts.  The decodes of the final
drained windows and of the final partial window after channel closure
are, however, appended to the session transcript *without* being
emitted, so the concatenation of the emitted chunk texts is in general
only a prefix of the final transcript, and `stop()` returns the
post-processed (`clean_transcript`) final transcript — not, in general,
the post-processed concatenation of emitted chunks (they coincide only
when the post-closure decodes are empty). -/
theorem parakeet_stop_text_structure {σe : Type}
    (transcribe : σe → List ℚ → σe × Except (List Char) (List Char))
    (rate : ℕ) (eng0 : σe) (msgs : List (List ℚ))
    (isWS isLow : Char → Bool) (upStr : Char → List Char) :
    (parakeetLoop transcribe (parakeetChunkSize rate)
        ⟨eng0, [], [], []⟩ msgs).session
      = (parakeetLoop transcribe (parakeetChunkSize rate)
          ⟨eng0, [], [], []⟩ msgs).emitted.join ∧
    (parakeetWorker transcribe rate eng0 msgs).1.join
      <+: (parakeetWorker transcribe rate eng0 msgs).2 ∧
    stop_parakeet_text isWS isLow upStr
        (parakeetWorker transcribe rate eng0 msgs).2
      = (if (parakeetWorker transcribe rate eng0 msgs).2 = []
         then "Recording saved.".toList
         else clean_transcript isWS isLow upStr
           (parakeetWorker transcribe rate eng0 msgs).2) := by
  have hloop := parakeetLoop_inv transcribe (parakeetChunkSize rate) msgs
    ⟨eng0, [], [], []⟩ (by simp)
  refine ⟨hloop, ?_, rfl⟩
  rw [parakeetWorker]
  refine List.IsPrefix.trans ?_ (finalPartial_extends transcribe rate _ _ _)
  rw [← hloop]
  exact finalDrainFuel_extends transcribe (rate * 6) _ _ _ _

/-- Counterexample for C4 as stated: a Parakeet session at
`sample_rate = 10` receiving only the lead-in silence (5 samples) and
the stop silence (10 samples), with an engine that decodes every chunk
to `"x"`.  The live loop decodes one 11-sample chunk (emitting `"x"`);
after closure the 4 leftover samples (0.4 s > 0.1 s) are decoded and
appended *without* being emitted, so `stop()` returns
`clean_transcript("xx") = "Xx"` while the post-processed concatenation
of emitted chunks is `clean_transcript("x") = "X"`. -/
theorem parakeet_stop_vs_emitted_counterexample :
    stop_parakeet_text (fun c => c = ' ') (fun c => c = 'x')
        (fun _ => ['X'])
        (parakeetWorker (fun _ c => ((), Except.ok ['x'])) 10 ()
          [List.replicate 5 0, List.replicate 10 0]).2
      ≠ clean_transcript (fun c => c = ' ') (fun c => c = 'x')
          (fun _ => ['X'])
          ((parakeetWorker (fun _ c => ((), Except.ok ['x'])) 10 ()
            [List.replicate 5 0, List.replicate 10 0]).1.join) := by
  decide

end Taurscribe
